import Mathlib

/-!
Shallow embedding of the rzm2 Z-Machine interpreter core, translated from the
Rust sources under `src/zmachine/` (`addressing.rs`, `memory.rs`, `stack.rs`,
`opcode.rs`, `zscii.rs`, `traits.rs`, `version.rs`, `fixtures.rs`), together
with theorems settling the specification claims about it.

Machine integers are modelled as `Nat` with explicit masking (`% 256`,
`% 65536`, `&&& 0xff`, ...) exactly where the Rust code has a fixed-width type
or cast.  Fallible operations return `Except ZErr`; operations that mutate a
`&mut self` receiver in Rust additionally return the receiver's state, so that
the partially-mutated state after a failed operation stays observable, exactly
as it is in Rust.
-/

set_option maxRecDepth 4000

/-- Error kinds, from `result.rs` (`enum ZErr`). -/
inductive ZErr where
  | BadVariableIndex (kind : String) (idx : Nat)
  | LocalOutOfRange (req : Nat) (numLocals : Nat)
  | MissingOperand
  | StackOverflow (msg : String)
  | StackUnderflow (msg : String)
  | UnknownOpcode (msg : String) (code : Nat)
  | UnknownVersionNumber (v : Nat)
  | WriteViolation (offset : Nat)
  | GenericError (msg : String)
deriving DecidableEq

/-- Decidable equality of `Except` results, used to evaluate concrete runs. -/
instance {ε α : Type} [DecidableEq ε] [DecidableEq α] : DecidableEq (Except ε α) := fun x y =>
  match x, y with
  | .ok a, .ok b =>
    if h : a = b then .isTrue (by rw [h]) else .isFalse (fun hh => h (Except.ok.inj hh))
  | .error e, .error f =>
    if h : e = f then .isTrue (by rw [h]) else .isFalse (fun hh => h (Except.error.inj hh))
  | .ok _, .error _ => .isFalse (fun hh => Except.noConfusion hh)
  | .error _, .ok _ => .isFalse (fun hh => Except.noConfusion hh)

/-- Z-Machine versions in scope, from `version.rs` (`enum ZVersion`). -/
inductive ZVersion where
  | V3
  | V5
deriving DecidableEq

/-- Numeric value of a version (`ZVersion` has discriminants 3 and 5; the
derived `PartialOrd` order agrees with this numbering). -/
def ZVersion.toNat : ZVersion → Nat
  | .V3 => 3
  | .V5 => 5

/-- `ZOffset` in `addressing.rs` wraps a `usize`; here an offset is a plain
`Nat`. `ByteAddress` wraps a `u16`. -/
structure ByteAddress where
  raw : Nat
deriving DecidableEq

/-- `ByteAddress::from_raw` (the `u16` argument is modelled by masking). -/
def ByteAddress.fromRaw (w : Nat) : ByteAddress := ⟨w % 65536⟩

/-- `impl From<ByteAddress> for ZOffset`: identity on the raw value. -/
def ByteAddress.toZOffset (ba : ByteAddress) : Nat := ba.raw

/-- `ByteAddress::inc_by` (u16 addition). -/
def ByteAddress.incBy (ba : ByteAddress) (by_ : Nat) : ByteAddress :=
  ⟨(ba.raw + by_) % 65536⟩

/-- `WordAddress` wraps a `u16`. -/
structure WordAddress where
  raw : Nat
deriving DecidableEq

/-- `WordAddress::from_raw`. -/
def WordAddress.fromRaw (w : Nat) : WordAddress := ⟨w % 65536⟩

/-- `impl From<WordAddress> for ZOffset`: `usize::from(ba.0) * 2`. -/
def WordAddress.toZOffset (wa : WordAddress) : Nat := wa.raw * 2

/-- `PackedAddress` from `addressing.rs`: a `u16` value, a multiplier and a
V6-only offset (zero for V3/V5). -/
structure PackedAddress where
  val : Nat
  multiplier : Nat
  offset : Nat
deriving DecidableEq

/-- `PackedAddress::new(val, version)`: multiplier 2 for V3, 4 for V5. -/
def PackedAddress.new (val : Nat) (version : ZVersion) : PackedAddress :=
  ⟨val % 65536, match version with | .V3 => 2 | .V5 => 4, 0⟩

/-- `impl From<PackedAddress> for ZOffset`:
`pa.val * pa.multiplier + pa.offset`. -/
def PackedAddress.toZOffset (pa : PackedAddress) : Nat :=
  pa.val * pa.multiplier + pa.offset

/-- `ZVersion::make_packed_address` from `version.rs` (same multiplier table
as `PackedAddress::new`). -/
def ZVersion.makePackedAddress (v : ZVersion) (val : Nat) : PackedAddress :=
  PackedAddress.new val v

/-- Variable names, from `opcode.rs` (`enum ZVariable`). -/
inductive ZVariable where
  | Stack
  | Local (l : Nat)
  | Global (g : Nat)
deriving DecidableEq

/-- `impl From<u8> for ZVariable`: 0 is the stack, 1..=0x0f the locals,
0x10..=0xff the globals. -/
def ZVariable.fromByte (b : Nat) : ZVariable :=
  if b = 0 then .Stack
  else if b ≤ 0x0f then .Local (b - 1)
  else .Global (b - 0x10)

/-- `impl From<ZVariable> for u8`. -/
def ZVariable.toByte : ZVariable → Nat
  | .Stack => 0x00
  | .Local l => l + 0x01
  | .Global g => g + 0x10

/-- `bytes::byte_from_slice` from `traits.rs` (Rust indexes the slice and
panics out of range; panic-free states keep all indices in range). -/
def byteFromSlice (slice : List Nat) (idx : Nat) : Nat := slice.getD idx 0

/-- `bytes::byte_to_slice` (the `u8` argument is modelled by masking). -/
def byteToSlice (slice : List Nat) (idx : Nat) (val : Nat) : List Nat :=
  slice.set idx (val % 256)

/-- `bytes::word_from_slice`: big-endian, `(high_byte << 8) + low_byte`. -/
def wordFromSlice (slice : List Nat) (idx : Nat) : Nat :=
  ((byteFromSlice slice idx) <<< 8) + byteFromSlice slice (idx + 1)

/-- `bytes::word_to_slice`: big-endian, high byte first. -/
def wordToSlice (slice : List Nat) (idx : Nat) (val : Nat) : List Nat :=
  byteToSlice (byteToSlice slice idx ((val >>> 8) &&& 0xff)) (idx + 1) (val &&& 0xff)

/-- `bytes::long_word_from_slice`: 4 bytes, big-endian. -/
def longWordFromSlice (slice : List Nat) (idx : Nat) : Nat :=
  ((byteFromSlice slice idx) <<< 24) + ((byteFromSlice slice (idx + 1)) <<< 16) +
    ((byteFromSlice slice (idx + 2)) <<< 8) + byteFromSlice slice (idx + 3)

/-! ## Claim C8: address conversions -/

/-- C8: address conversions: `ZOffset(ByteAddress(w)) = w`,
`ZOffset(WordAddress(w)) = 2·w`, and `ZOffset(PackedAddress(w, V3)) = 2·w`,
`ZOffset(PackedAddress(w, V5)) = 4·w`, for every 16-bit raw value `w`. -/
theorem addressConversions_correct (w : Nat) (h : w < 65536) :
    (ByteAddress.fromRaw w).toZOffset = w ∧
    (WordAddress.fromRaw w).toZOffset = 2 * w ∧
    (PackedAddress.new w ZVersion.V3).toZOffset = 2 * w ∧
    (PackedAddress.new w ZVersion.V5).toZOffset = 4 * w := by
  have hw : w % 65536 = w := Nat.mod_eq_of_lt h
  refine ⟨?_, ?_, ?_, ?_⟩ <;>
    simp [ByteAddress.fromRaw, ByteAddress.toZOffset, WordAddress.fromRaw,
      WordAddress.toZOffset, PackedAddress.new, PackedAddress.toZOffset, hw] <;>
    omega

/-- Witness for C8 at the spec's concrete scenario value 0x4321. -/
theorem addressConversions_correct_witness :
    (ByteAddress.fromRaw 0x4321).toZOffset = 0x4321 ∧
    (WordAddress.fromRaw 0x4321).toZOffset = 2 * 0x4321 ∧
    (PackedAddress.new 0x4321 ZVersion.V3).toZOffset = 2 * 0x4321 ∧
    (PackedAddress.new 0x4321 ZVersion.V5).toZOffset = 4 * 0x4321 :=
  addressConversions_correct 0x4321 (by decide)

/-! ## The call stack (`stack.rs`) -/

/-- Modelled from the spec: `zmachine/mod.rs` declares `mod constants;` but
`constants.rs` is not among the sources.  The spec fixes the stack capacity:
"Stack capacity is a fixed implementation-chosen constant (reference: 1024
bytes)", which also matches the arithmetic of the stack tests (42 frames of
24 bytes above the 8-byte root frame, then 4 more words, exactly fill it). -/
def STACK_SIZE : Nat := 1024

/-- `ZStack` from `stack.rs`: the byte array, the frame pointer, the bottom of
the current frame's eval stack `s0`, and the stack pointer `sp` (next empty
byte). -/
structure ZStack where
  stack : List Nat
  fp : Nat
  s0 : Nat
  sp : Nat
deriving DecidableEq

/-- `ZStack::SAVED_PC_OFFSET` (the saved frame pointer lives at offset 0). -/
def ZStack.SAVED_PC_OFFSET : Nat := 0

/-- `ZStack::RETURN_PC_OFFSET`. -/
def ZStack.RETURN_PC_OFFSET : Nat := 2

/-- `ZStack::RETURN_VAR_OFFSET`. -/
def ZStack.RETURN_VAR_OFFSET : Nat := 6

/-- `ZStack::NUM_LOCALS_OFFSET`. -/
def ZStack.NUM_LOCALS_OFFSET : Nat := 7

/-- `ZStack::LOCAL_VAR_OFFSET`. -/
def ZStack.LOCAL_VAR_OFFSET : Nat := 8

/-- `Stack::push_byte` for `ZStack` (the `u8` argument is modelled by
masking).  On failure the state is returned unchanged. -/
def ZStack.pushByte (s : ZStack) (byte : Nat) : Except ZErr Unit × ZStack :=
  if s.sp < STACK_SIZE then
    (.ok (), { s with stack := s.stack.set s.sp (byte % 256), sp := s.sp + 1 })
  else
    (.error (.StackOverflow "Pushed bytes off end of stack."), s)

/-- `Stack::pop_byte` for `ZStack`. -/
def ZStack.popByte (s : ZStack) : Except ZErr Nat × ZStack :=
  if s.s0 < s.sp then
    (.ok (s.stack.getD (s.sp - 1) 0), { s with sp := s.sp - 1 })
  else
    (.error (.StackUnderflow "Popped byte off empty stack."), s)

/-- `Stack::push_word` default implementation from `traits.rs`:
`push_byte(word >> 8 & 0xff)` then `push_byte(word >> 0 & 0xff)`. -/
def ZStack.pushWord (s : ZStack) (word : Nat) : Except ZErr Unit × ZStack :=
  match s.pushByte ((word >>> 8) &&& 0xff) with
  | (.ok _, s1) => s1.pushByte ((word >>> 0) &&& 0xff)
  | (.error e, s1) => (.error e, s1)

/-- `Stack::pop_word` default implementation from `traits.rs`: pops the low
byte, then the high byte, and returns `(high << 8) + low`. -/
def ZStack.popWord (s : ZStack) : Except ZErr Nat × ZStack :=
  match s.popByte with
  | (.ok lowByte, s1) =>
    match s1.popByte with
    | (.ok highByte, s2) => (.ok ((highByte <<< 8) + lowByte), s2)
    | (.error e, s2) => (.error e, s2)
  | (.error e, s1) => (.error e, s1)

/-- `ZStack::num_locals`: the byte at `fp + NUM_LOCALS_OFFSET`. -/
def ZStack.numLocals (s : ZStack) : Nat :=
  byteFromSlice s.stack (s.fp + ZStack.NUM_LOCALS_OFFSET)

/-- `ZStack::saved_fp`: the word at `fp + SAVED_PC_OFFSET`. -/
def ZStack.savedFp (s : ZStack) : Nat :=
  wordFromSlice s.stack (s.fp + ZStack.SAVED_PC_OFFSET)

/-- `Stack::return_pc` for `ZStack`: the 4-byte word at
`fp + RETURN_PC_OFFSET`. -/
def ZStack.returnPc (s : ZStack) : Nat :=
  longWordFromSlice s.stack (s.fp + ZStack.RETURN_PC_OFFSET)

/-- `Stack::return_variable` for `ZStack`: decodes the byte at
`fp + RETURN_VAR_OFFSET`. -/
def ZStack.returnVariable (s : ZStack) : ZVariable :=
  ZVariable.fromByte (byteFromSlice s.stack (s.fp + ZStack.RETURN_VAR_OFFSET))

/-- `Stack::read_local` for `ZStack`: range-checked against `num_locals`. -/
def ZStack.readLocal (s : ZStack) (l : Nat) : Except ZErr Nat :=
  if s.numLocals ≤ l then
    .error (.LocalOutOfRange l s.numLocals)
  else
    .ok (wordFromSlice s.stack (s.fp + ZStack.LOCAL_VAR_OFFSET + l * 2))

/-- `Stack::write_local` for `ZStack`: writes the word at
`fp + LOCAL_VAR_OFFSET + 2·l` with no range check, and always returns `Ok`. -/
def ZStack.writeLocal (s : ZStack) (l : Nat) (val : Nat) : Except ZErr Unit × ZStack :=
  (.ok (), { s with stack := wordToSlice s.stack (s.fp + ZStack.LOCAL_VAR_OFFSET + l * 2) val })

/-- `ZStack::push_addr`: `push_word(addr >> 16 & 0xffff)` then
`push_word(addr >> 0 & 0xffff)`. -/
def ZStack.pushAddr (s : ZStack) (addr : Nat) : Except ZErr Unit × ZStack :=
  match s.pushWord ((addr >>> 16) &&& 0xffff) with
  | (.ok _, s1) => s1.pushWord ((addr >>> 0) &&& 0xffff)
  | (.error e, s1) => (.error e, s1)

/-- The `for _ in 0..num_locals { self.push_word(0)?; }` loop inside
`ZStack::push_frame`. -/
def ZStack.pushZeroLocals (s : ZStack) : Nat → Except ZErr Unit × ZStack
  | 0 => (.ok (), s)
  | n + 1 =>
    match s.pushWord 0 with
    | (.ok _, s1) => s1.pushZeroLocals n
    | (.error e, s1) => (.error e, s1)

/-- The `for (idx, op) in operands.iter().enumerate()` loop inside
`ZStack::push_frame`: stops at the first `idx ≥ num_locals`, otherwise
`write_local(idx, op)`. -/
def ZStack.setLocalsFromOperands (s : ZStack) (operands : List Nat) (idx numLocals : Nat) :
    Except ZErr Unit × ZStack :=
  match operands with
  | [] => (.ok (), s)
  | op :: rest =>
    if numLocals ≤ idx then (.ok (), s)
    else
      match s.writeLocal idx op with
      | (.ok _, s1) => s1.setLocalsFromOperands rest (idx + 1) numLocals
      | (.error e, s1) => (.error e, s1)

/-- `Stack::push_frame` for `ZStack` (`num_locals` is a `u8`, modelled by
masking; the saved frame pointer is pushed `as u16`).  Mirrors the source
order: push old fp, set fp, push return pc, return variable and local count,
push zeroed local slots, overwrite the leading locals from `operands`, then
set `s0`. -/
def ZStack.pushFrame (s : ZStack) (returnPc : Nat) (numLocals : Nat)
    (returnVar : ZVariable) (operands : List Nat) : Except ZErr Unit × ZStack :=
  let n := numLocals % 256
  let newFp := s.sp
  let oldFp := s.fp
  match s.pushWord (oldFp % 65536) with
  | (.error e, s1) => (.error e, s1)
  | (.ok _, s1) =>
    let s2 : ZStack := { s1 with fp := newFp }
    match s2.pushAddr returnPc with
    | (.error e, s3) => (.error e, s3)
    | (.ok _, s3) =>
      match s3.pushByte returnVar.toByte with
      | (.error e, s4) => (.error e, s4)
      | (.ok _, s4) =>
        match s4.pushByte n with
        | (.error e, s5) => (.error e, s5)
        | (.ok _, s5) =>
          match s5.pushZeroLocals n with
          | (.error e, s6) => (.error e, s6)
          | (.ok _, s6) =>
            match s6.setLocalsFromOperands operands 0 n with
            | (.error e, s7) => (.error e, s7)
            | (.ok _, s7) => (.ok (), { s7 with s0 := s7.sp })

/-- `Stack::pop_frame` for `ZStack`: underflow check against the root
sentinel, then restore `sp`, `fp`, and recompute `s0` as the exposed frame's
locals end. -/
def ZStack.popFrame (s : ZStack) : Except ZErr Unit × ZStack :=
  if STACK_SIZE ≤ s.savedFp then
    (.error (.StackUnderflow "Popped top stack frame."), s)
  else
    let oldFp := s.fp
    let s1 : ZStack := { s with sp := oldFp }
    let s2 : ZStack := { s1 with fp := s1.savedFp }
    (.ok (), { s2 with s0 := s2.fp + ZStack.LOCAL_VAR_OFFSET + 2 * s2.numLocals })

/-- `ZStack::init_new_stack`: the synthetic root frame — sentinel saved fp
equal to `STACK_SIZE`, zero return pc, return variable `Global 0xef`, no
locals. -/
def ZStack.initNewStack (s : ZStack) : Except ZErr Unit × ZStack :=
  match s.pushWord (STACK_SIZE % 65536) with
  | (.error e, s1) => (.error e, s1)
  | (.ok _, s1) =>
    match s1.pushAddr 0 with
    | (.error e, s2) => (.error e, s2)
    | (.ok _, s2) =>
      match s2.pushByte (ZVariable.Global 0xef).toByte with
      | (.error e, s3) => (.error e, s3)
      | (.ok _, s3) => s3.pushByte 0

/-- `ZStack::new`: a zeroed array of `STACK_SIZE` bytes, the root pseudo-frame
pushed, then `s0` set to `sp` (the init cannot fail; Rust unwraps). -/
def ZStack.new : ZStack :=
  let zs : ZStack := { stack := List.replicate STACK_SIZE 0, fp := 0, s0 := 0, sp := 0 }
  match zs.initNewStack with
  | (.ok _, s) => { s with s0 := s.sp }
  | (.error _, s) => { s with s0 := s.sp }

/-! ## The memory image (`memory.rs` and the `Memory` trait defaults) -/

/-- `ZMemory` from `memory.rs`: the byte image and the bases of static and
high memory. -/
structure ZMemory where
  bytes : List Nat
  staticMem : Nat
  highMem : Nat
deriving DecidableEq

/-- `Memory::read_byte` for `ZMemory` (Rust indexes and panics out of range;
in-range reads are the ones the interpreter performs). -/
def ZMemory.readByte (m : ZMemory) (offset : Nat) : Nat := m.bytes.getD offset 0

/-- `Memory::write_byte` for `ZMemory`: succeeds below `static_mem`, fails
with `WriteViolation` otherwise.  On failure the memory is returned
unchanged. -/
def ZMemory.writeByte (m : ZMemory) (offset val : Nat) : Except ZErr Unit × ZMemory :=
  if offset < m.staticMem then
    (.ok (), { m with bytes := m.bytes.set offset (val % 256) })
  else
    (.error (.WriteViolation offset), m)

/-- `Memory::read_word` default implementation: big-endian pair of
`read_byte`s. -/
def ZMemory.readWord (m : ZMemory) (offset : Nat) : Nat :=
  ((m.readByte offset) <<< 8) + m.readByte (offset + 1)

/-- `Memory::write_word` default implementation from `traits.rs`: write the
high byte at `offset`, then (only if that succeeded) the low byte at
`offset + 1`. -/
def ZMemory.writeWord (m : ZMemory) (offset val : Nat) : Except ZErr Unit × ZMemory :=
  match m.writeByte offset ((val >>> 8) &&& 0xff) with
  | (.ok _, m1) => m1.writeByte (offset + 1) (val &&& 0xff)
  | (.error e, m1) => (.error e, m1)

/-! ## Claim C2: write protection and failed writes -/

/-- C2 counterexample: with `static_base = 2`, the word write at offset 1
straddles the dynamic/static boundary; it fails with `WriteViolation`, yet it
has already modified the dynamic byte at offset 1 — the failed write does not
leave the memory image unchanged, contrary to the claim. -/
theorem failedWriteWord_modifies_memory :
    ZMemory.writeWord ⟨[1, 2, 3, 4], 2, 4⟩ 1 0xABCD =
      (.error (.WriteViolation 2), ⟨[1, 0xAB, 3, 4], 2, 4⟩) ∧
    (⟨[1, 0xAB, 3, 4], 2, 4⟩ : ZMemory) ≠ ⟨[1, 2, 3, 4], 2, 4⟩ := by
  decide

/-- C2 amended: `write_byte(o, v)` fails with `WriteViolation` exactly when
`o ≥ static_base` and leaves memory unchanged then, and succeeds otherwise;
but `write_word` is not atomic: when its two byte locations straddle the
boundary (`o + 1 = static_base`), the first (dynamic) byte is modified before
the write fails with `WriteViolation` at `o + 1`. -/
theorem writeByte_protection_writeWord_straddle (m : ZMemory) (o v : Nat) :
    (m.staticMem ≤ o → m.writeByte o v = (.error (.WriteViolation o), m)) ∧
    (o < m.staticMem →
      m.writeByte o v = (.ok (), { m with bytes := m.bytes.set o (v % 256) })) ∧
    (o + 1 = m.staticMem →
      m.writeWord o v =
        (.error (.WriteViolation (o + 1)),
          { m with bytes := m.bytes.set o (((v >>> 8) &&& 0xff) % 256) })) := by
  refine ⟨fun h => ?_, fun h => ?_, fun h => ?_⟩
  · rw [ZMemory.writeByte, if_neg (by omega)]
  · rw [ZMemory.writeByte, if_pos h]
  · have hmid : m.writeByte o ((v >>> 8) &&& 0xff) =
        (.ok (), { m with bytes := m.bytes.set o (((v >>> 8) &&& 0xff) % 256) }) := by
      rw [ZMemory.writeByte, if_pos (by omega)]
    rw [ZMemory.writeWord, hmid]
    show ZMemory.writeByte _ (o + 1) (v &&& 0xff) = _
    rw [ZMemory.writeByte, if_neg (show ¬ o + 1 < m.staticMem by omega)]

/-- Witness for C2's amended theorem at concrete inputs: a write at/above the
boundary fails cleanly, a dynamic write succeeds, and a straddling word write
fails after modifying the first byte. -/
theorem writeByte_protection_writeWord_straddle_witness :
    (ZMemory.writeByte ⟨[1, 2, 3, 4], 2, 4⟩ 2 9 =
      (.error (.WriteViolation 2), ⟨[1, 2, 3, 4], 2, 4⟩)) ∧
    (ZMemory.writeByte ⟨[1, 2, 3, 4], 2, 4⟩ 0 9 = (.ok (), ⟨[9, 2, 3, 4], 2, 4⟩)) ∧
    (ZMemory.writeWord ⟨[1, 2, 3, 4], 2, 4⟩ 1 0xABCD =
      (.error (.WriteViolation 2), ⟨[1, 0xAB, 3, 4], 2, 4⟩)) := by
  refine ⟨(writeByte_protection_writeWord_straddle ⟨[1, 2, 3, 4], 2, 4⟩ 2 9).1 (by decide),
    ?_, ?_⟩
  · have h := (writeByte_protection_writeWord_straddle ⟨[1, 2, 3, 4], 2, 4⟩ 0 9).2.1 (by decide)
    rw [h]; decide
  · have h := (writeByte_protection_writeWord_straddle ⟨[1, 2, 3, 4], 2, 4⟩ 1 0xABCD).2.2 (by decide)
    rw [h]; decide

/-! ## Claim C4: local variable range checks -/

/-- C4 counterexample: on the fresh stack the current frame has no locals, so
index 0 is out of range, yet `write_local(0, 17)` succeeds — `write_local`
performs no range check, contrary to the claim that it fails with
`LocalOutOfRange`. -/
theorem writeLocal_no_range_check :
    ZStack.new.numLocals ≤ 0 ∧ (ZStack.new.writeLocal 0 17).1 = .ok () := by
  decide

/-- C4 amended: `read_local(i)` fails with `LocalOutOfRange(i, num_locals)`
exactly when `i ≥ num_locals` and succeeds otherwise; `write_local(i, v)`
always returns `Ok` — it has no range check. -/
theorem readLocal_checked_writeLocal_unchecked (s : ZStack) (i v : Nat) :
    (s.numLocals ≤ i → s.readLocal i = .error (.LocalOutOfRange i s.numLocals)) ∧
    (i < s.numLocals →
      s.readLocal i =
        .ok (wordFromSlice s.stack (s.fp + ZStack.LOCAL_VAR_OFFSET + i * 2))) ∧
    (s.writeLocal i v).1 = .ok () := by
  refine ⟨fun h => ?_, fun h => ?_, rfl⟩
  · rw [ZStack.readLocal, if_pos h]
  · rw [ZStack.readLocal, if_neg (by omega)]

/-- Witness for C4's amended theorem: on the fresh stack local 0 is out of
range; after pushing a frame with five locals (the stack test's frame),
local 0 reads back the first argument; and a write succeeds regardless. -/
theorem readLocal_checked_writeLocal_unchecked_witness :
    (ZStack.new.readLocal 0 = .error (.LocalOutOfRange 0 0)) ∧
    ((ZStack.new.pushFrame 0xbabef00d 5 (.Global 3) [34, 38]).2.readLocal 0 = .ok 34) ∧
    ((ZStack.new.writeLocal 0 17).1 = .ok ()) := by
  refine ⟨?_, ?_, (readLocal_checked_writeLocal_unchecked ZStack.new 0 17).2.2⟩
  · have h := (readLocal_checked_writeLocal_unchecked ZStack.new 0 0).1 (by decide)
    rw [h]; decide
  · have h := (readLocal_checked_writeLocal_unchecked
      (ZStack.new.pushFrame 0xbabef00d 5 (.Global 3) [34, 38]).2 0 0).2.1 (by decide)
    rw [h]; decide

/-! ## Program counter, operands, branch decoding (`addressing.rs` `ZPC`,
`opcode.rs`, and the `PC` trait defaults from `traits.rs`) -/

/-- `ZPC` from `addressing.rs`: the current offset plus a handle to memory.
The handle is read-only from the pc's side, so it is modelled as the byte
image's read function (what `read_byte` on the handle returns at each
offset). -/
structure ZPC where
  pc : Nat
  mem : Nat → Nat

/-- `PC::current_pc`. -/
def ZPC.currentPc (p : ZPC) : Nat := p.pc

/-- `PC::set_current_pc`: unchecked reassignment. -/
def ZPC.setCurrentPc (p : ZPC) (newPc : Nat) : ZPC := { p with pc := newPc }

/-- `ZPC::next_byte`: read the byte at `pc`, advance by one. -/
def ZPC.nextByte (p : ZPC) : Nat × ZPC := (p.mem p.pc, { p with pc := p.pc + 1 })

/-- `PC::next_word` default implementation: two `next_byte`s, big-endian. -/
def ZPC.nextWord (p : ZPC) : Nat × ZPC :=
  let (highByte, p1) := p.nextByte
  let (lowByte, p2) := p1.nextByte
  ((highByte <<< 8) + lowByte, p2)

/-- `PC::offset_pc` default implementation: signed delta added to the pc
(`(pc as isize + offset) as usize`; the interpreter never drives it
negative). -/
def ZPC.offsetPc (p : ZPC) (offset : Int) : ZPC :=
  { p with pc := (Int.ofNat p.pc + offset).toNat }

/-- Reinterpretation of a 16-bit value as a signed `i16` (`as i16`). -/
def toI16 (n : Nat) : Int :=
  if n % 65536 < 32768 then ((n % 65536 : Nat) : Int)
  else ((n % 65536 : Nat) : Int) - 65536

/-- `interpret_offset_byte` from `opcode.rs`: bit 6 set means a one-byte
unsigned 0..=63 offset; otherwise a second byte is read from the pc and the
14-bit value is sign-extended from bit 13 (`offset |= 0xc000`)
and reinterpreted as `i16`. -/
def interpretOffsetByte (byte : Nat) (p : ZPC) : Int × ZPC :=
  if byte &&& 0x40 ≠ 0 then
    (((byte &&& 0x3f : Nat) : Int), p)
  else
    let (secondByte, p1) := p.nextByte
    let offset := ((byte &&& 0x3f) <<< 8) + secondByte
    let offset1 := if offset &&& 0x2000 ≠ 0 then
        offset ||| 0xc000
      else offset
    (toI16 offset1, p1)

/-- Outcome of the `branch` helper in `opcode.rs`: either the pc value after
the branch decision, or one of the two `unimplemented!` panic sites that
stand where "return false / return true from the current routine" should
be. -/
inductive BranchEnd where
  | normal (pc : Nat)
  | retFalseUnimplemented
  | retTrueUnimplemented
deriving DecidableEq

/-- `branch` from `opcode.rs`, generic over the test closure (the closure's
captured mutable state is `σ`): bit 7 of the first byte is the polarity; when
`branch_on_truth == truth` the decoded offset is acted on — offset 0 and 1
hit `unimplemented!("ret false")` / `unimplemented!("ret true")`, any other
offset moves the pc by `offset - 2`. -/
def branchGen {σ : Type} (byte : Nat) (p : ZPC)
    (tst : Int → Bool → Except ZErr (Bool × σ)) : Except ZErr (BranchEnd × σ) :=
  let branchOnTruth := byte &&& 0x80 ≠ 0
  let (offset, p1) := interpretOffsetByte byte p
  match tst offset branchOnTruth with
  | .error e => .error e
  | .ok (truth, st) =>
    if branchOnTruth = truth then
      match offset with
      | 0 => .ok (.retFalseUnimplemented, st)
      | 1 => .ok (.retTrueUnimplemented, st)
      | o => .ok (.normal (p1.offsetPc (o - 2)).pc, st)
    else .ok (.normal p1.pc, st)

/-! ## Claim C3: branch decoding and execution -/

/-- C3: branch decoding follows the claimed algorithm on the spec's concrete
examples — byte `0xc6` decodes to offset 6 with polarity true and
length 1, bytes `0x2a 0xAB` decode to −5461 with polarity false and
length 2, and a taken branch with offset 6 moves the pc by 6 − 2 — but a
taken branch whose decoded offset is 0 or 1 reaches the `unimplemented!`
panics instead of returning false / true from the current routine.  (The
second component of each `branchGen` result records the polarity handed to
the predicate.) -/
theorem branch_decode_and_unimplemented_returns :
    (interpretOffsetByte 0xc6 ⟨10, fun _ => 0⟩).1 = 6 ∧
    (interpretOffsetByte 0xc6 ⟨10, fun _ => 0⟩).2.pc = 10 ∧
    (interpretOffsetByte 0x2a ⟨0, fun _ => 0xAB⟩).1 = -5461 ∧
    (interpretOffsetByte 0x2a ⟨0, fun _ => 0xAB⟩).2.pc = 1 ∧
    branchGen 0xc6 ⟨20, fun _ => 0⟩ (fun _ bot => .ok (true, bot)) =
      .ok (.normal 24, true) ∧
    branchGen 0x2a ⟨0, fun _ => 0xAB⟩ (fun _ bot => .ok (true, bot)) =
      .ok (.normal 1, false) ∧
    branchGen 0xc0 ⟨20, fun _ => 0⟩ (fun _ bot => .ok (true, bot)) =
      .ok (.retFalseUnimplemented, true) ∧
    branchGen 0xc1 ⟨20, fun _ => 0⟩ (fun _ bot => .ok (true, bot)) =
      .ok (.retTrueUnimplemented, true) := by
  decide

/-! ## Variables and operands (`fixtures.rs` `TestVariables`, `opcode.rs`
`ZOperand`) -/

/-- The repository's `Variables` test double from `fixtures.rs`
(`TestVariables`), a map from variable to 16-bit value, modelled as an
association list with newest binding first (`HashMap::insert` replaces; the
handlers under test are generic over any `Variables` implementation). -/
abbrev TestVariables : Type := List (ZVariable × Nat)

/-- `TestVariables::read_variable`: the stored value, or `GenericError` if
the variable was never written. -/
def TestVariables.readVariable : TestVariables → ZVariable → Except ZErr Nat
  | [], _ => .error (.GenericError "Variable missing")
  | (k, x) :: rest, var => if k = var then .ok x else TestVariables.readVariable rest var

/-- `TestVariables::write_variable`: insert (always succeeds; the `u16` value
is modelled by masking). -/
def TestVariables.writeVariable (vs : TestVariables) (var : ZVariable) (val : Nat) :
    TestVariables :=
  (var, val % 65536) :: vs

/-- `ZOperand` from `opcode.rs`. -/
inductive ZOperand where
  | LargeConstant (c : Nat)
  | SmallConstant (c : Nat)
  | Var (v : ZVariable)
  | Omitted
deriving DecidableEq

/-- `ZOperand::value`: constants evaluate to themselves (as `u16`), a
variable operand reads the variable, `Omitted` fails with
`MissingOperand`. -/
def ZOperand.value (op : ZOperand) (vars : TestVariables) : Except ZErr Nat :=
  match op with
  | .LargeConstant val => .ok (val % 65536)
  | .SmallConstant val => .ok (val % 256)
  | .Var var => vars.readVariable var
  | .Omitted => .error .MissingOperand

/-! ## Claim C5: `inc_chk` (`two_op::o_5_inc_chk`) -/

/-- `two_op::o_5_inc_chk` from `opcode.rs`: operand 0 names the variable
(`as u8`), a branch byte is read from the pc, and the branch predicate
increments the variable with `overflowing_add(1)` (16-bit wrap) and tests
`result > test_value` — a plain `u16` comparison. -/
def o_5_inc_chk (p : ZPC) (vars : TestVariables) (operands : ZOperand × ZOperand) :
    Except ZErr (BranchEnd × TestVariables) :=
  match operands.1.value vars with
  | .error e => .error e
  | .ok v0 =>
    let var1 := ZVariable.fromByte (v0 % 256)
    let (firstOffsetByte, p1) := p.nextByte
    branchGen firstOffsetByte p1 (fun _offset _branchOnTruth =>
      match vars.readVariable var1 with
      | .error e => .error e
      | .ok oldValue =>
        let result := (oldValue + 1) % 65536
        let vars1 := vars.writeVariable var1 result
        match operands.2.value vars1 with
        | .error e => .error e
        | .ok testValue => .ok (decide (testValue < result), vars1))

/-- C5: `inc_chk` increments G0 from 0xFFFE to 0xFFFF (signed −1) and takes
the branch against test value 0 because the comparison `result > test_value`
is an unsigned `u16` comparison (0xFFFF > 0), although under the claimed
signed comparison −1 > 0 is false and the branch must not be taken.
(Branch byte 0xC4: polarity true, short form, offset 4, so the taken branch
moves the pc from 1 to 3.) -/
theorem incChk_compares_unsigned :
    o_5_inc_chk ⟨0, fun _ => 0xC4⟩ [(ZVariable.Global 0, 0xFFFE)]
        (ZOperand.SmallConstant 0x10, ZOperand.SmallConstant 0) =
      .ok (.normal 3,
        [(ZVariable.Global 0, 0xFFFF), (ZVariable.Global 0, 0xFFFE)]) ∧
    ¬ toI16 0 < toI16 ((0xFFFE + 1) % 65536) := by
  decide

/-! ## Claim C1: the `call` opcode (`var_op::o_224_call`) -/

/-- The `for i in 0..num_locals { local_values[i] = pc.next_word(); }` loop of
`o_224_call` (V3 only): read the routine header's default words from the
pc. -/
def readDefaultWords (p : ZPC) : Nat → List Nat × ZPC
  | 0 => ([], p)
  | n + 1 =>
    let (w, p1) := p.nextWord
    let (rest, p2) := readDefaultWords p1 n
    (w :: rest, p2)

/-- `var_op::o_224_call` from `opcode.rs`: read the store byte, remember the
return pc, treat operand 0 as a packed routine address and jump the pc there,
read the local count, on V3 (`version < V5`) read the per-local default words
into the leading entries of the `[0u16; 15]` array `local_values` (Rust
panics if the count exceeds 15), and push a frame passing the whole
`local_values` array as the initial locals.  There is no special case for a
routine address of 0, and the argument operands `operands[1..]` are never
copied into the locals (the handler's own `TODO` comments note both). -/
def o_224_call (version : ZVersion) (p : ZPC) (stack : ZStack) (vars : TestVariables)
    (operands : List ZOperand) : Except ZErr Unit × (ZPC × ZStack) :=
  let (store, p1) := p.nextByte
  let returnPc := p1.currentPc
  match (operands.getD 0 .Omitted).value vars with
  | .error e => (.error e, (p1, stack))
  | .ok v0 =>
    let packed := version.makePackedAddress v0
    let p2 := p1.setCurrentPc packed.toZOffset
    let (numLocals, p3) := p2.nextByte
    let (defaults, p4) :=
      if version.toNat < ZVersion.V5.toNat then readDefaultWords p3 numLocals
      else ([], p3)
    let localValues := (defaults ++ List.replicate 15 0).take 15
    match stack.pushFrame returnPc numLocals (ZVariable.fromByte store) localValues with
    | (.error e, stack1) => (.error e, (p4, stack1))
    | (.ok _, stack1) => (.ok (), (p4, stack1))

/-- The memory image for the spec's concrete call scenario: the store byte
`0x01` (variable L0) at 0x500, and the routine header `[02, 00 0B, 00 16]` at
offset 0x800 (packed address 0x400 times the V3 multiplier 2); all other
bytes zero. -/
def callScenarioMem : Nat → Nat := fun offset =>
  if offset = 0x500 then 0x01
  else if offset = 0x800 then 2
  else if offset = 0x802 then 0x0B
  else if offset = 0x804 then 0x16
  else 0

/-- C1: in the concrete V3 scenario `call #0400 #07 -> L0` against routine
header `[02, 00 0B, 00 16]`, the pushed frame has `num_locals = 2`, return
variable L0 and return pc 0x501 (the byte after the call) as claimed, but its
locals are `[0x0B, 0x16]` — both header defaults — because the handler never
overwrites them with the argument operand 7.  And with a routine operand of
0, instead of storing 0 and falling through, the handler pushes a frame
anyway (the fresh stack's fp moves from 0 to 8) and jumps the pc to offset 0,
reading the zero byte there as the local count. -/
theorem call_ignores_arguments_and_zero_routine :
    (o_224_call .V3 ⟨0x500, callScenarioMem⟩ ZStack.new []
        [.LargeConstant 0x0400, .LargeConstant 0x07, .Omitted, .Omitted]).1 = .ok () ∧
    (o_224_call .V3 ⟨0x500, callScenarioMem⟩ ZStack.new []
        [.LargeConstant 0x0400, .LargeConstant 0x07, .Omitted, .Omitted]).2.2.numLocals = 2 ∧
    (o_224_call .V3 ⟨0x500, callScenarioMem⟩ ZStack.new []
        [.LargeConstant 0x0400, .LargeConstant 0x07, .Omitted, .Omitted]).2.2.readLocal 0 =
      .ok 0x0B ∧
    (o_224_call .V3 ⟨0x500, callScenarioMem⟩ ZStack.new []
        [.LargeConstant 0x0400, .LargeConstant 0x07, .Omitted, .Omitted]).2.2.readLocal 1 =
      .ok 0x16 ∧
    (o_224_call .V3 ⟨0x500, callScenarioMem⟩ ZStack.new []
        [.LargeConstant 0x0400, .LargeConstant 0x07, .Omitted, .Omitted]).2.2.returnVariable =
      .Local 0 ∧
    (o_224_call .V3 ⟨0x500, callScenarioMem⟩ ZStack.new []
        [.LargeConstant 0x0400, .LargeConstant 0x07, .Omitted, .Omitted]).2.2.returnPc =
      0x501 ∧
    (o_224_call .V3 ⟨0x500, callScenarioMem⟩ ZStack.new []
        [.LargeConstant 0, .Omitted, .Omitted, .Omitted]).1 = .ok () ∧
    (o_224_call .V3 ⟨0x500, callScenarioMem⟩ ZStack.new []
        [.LargeConstant 0, .Omitted, .Omitted, .Omitted]).2.2.fp = 8 ∧
    ZStack.new.fp = 0 ∧
    (o_224_call .V3 ⟨0x500, callScenarioMem⟩ ZStack.new []
        [.LargeConstant 0, .Omitted, .Omitted, .Omitted]).2.1.pc = 1 := by
  decide

/-! ## Claim C7: the Z-string decoder (`zscii.rs`) -/

/-- `V2_TO_4_TABLE` from `zscii.rs`: 78 characters, three alphabets of 26. -/
def V2_TO_4_TABLE : List Char :=
  "abcdefghijklmnopqrstuvwxyz".toList ++
  "ABCDEFGHIJKLMNOPQRSTUVWXYZ".toList ++
  [' ', Char.ofNat 10] ++ "0123456789.,!?_#".toList ++
  [Char.ofNat 39, Char.ofNat 34, '/', Char.ofNat 92, '-', ':', '(', ')']

/-- `break_apart_word` from `zscii.rs`: the stop bit and the three 5-bit
codes of a word. -/
def breakApartWord (word : Nat) : Bool × List Nat :=
  (word &&& 0x8000 ≠ 0,
    [(word &&& 0x7c00) >>> 10, (word &&& 0x03e0) >>> 5, word &&& 0x001f])

/-- One iteration of the `for byte in bytes.iter()` loop of `read_zstr`:
given the pending alphabet offset and abbreviation table, consume one code
and return (emitted characters, next alphabet offset, next abbreviation
table).  An active abbreviation table expands `abbrevExpand table code`
(standing for `read_abbrev`); otherwise code 0 is a space, 1–3 arm an
abbreviation table, 4 and 5 set the alphabet offset 26 / 52 for the next
code, and 6..=31 index `V2_TO_4_TABLE` at `char_offset + code - 6`.  A code 6
reached with offset 52 indexes table entry 52; there is no 10-bit ZSCII
escape. -/
def zstrStep (abbrevExpand : Nat → Nat → List Char) (charOffset abbrevTable code : Nat) :
    List Char × Nat × Nat :=
  if 0 < abbrevTable then (abbrevExpand abbrevTable code, 0, 0)
  else if code = 0 then ([' '], 0, 0)
  else if code = 1 ∨ code = 2 ∨ code = 3 then ([], 0, code)
  else if code = 4 then ([], 26, 0)
  else if code = 5 then ([], 52, 0)
  else if 6 ≤ code ∧ code ≤ 31 then
    ([V2_TO_4_TABLE.getD (charOffset + code - 6) ' '], 0, 0)
  else ([], 0, 0)

/-- The inner loop of `read_zstr` over the three codes of one word. -/
def processCodes (abbrevExpand : Nat → Nat → List Char) :
    List Nat → Nat → Nat → List Char × Nat × Nat
  | [], charOffset, abbrevTable => ([], charOffset, abbrevTable)
  | code :: rest, charOffset, abbrevTable =>
    let (out, co1, ab1) := zstrStep abbrevExpand charOffset abbrevTable code
    let (outRest, co2, ab2) := processCodes abbrevExpand rest co1 ab1
    (out ++ outRest, co2, ab2)

/-- `read_zstr` from `zscii.rs` on a word sequence: decode words until the
stop bit (bit 15); the alphabet-offset and abbreviation state carry across
words.  The word source is the finite list actually read (the Rust loop pulls
words from `next_word` until the stop bit). -/
def read_zstr (abbrevExpand : Nat → Nat → List Char) :
    List Nat → Nat → Nat → List Char
  | [], _, _ => []
  | word :: rest, charOffset, abbrevTable =>
    let (done, codes) := breakApartWord word
    let (out, co1, ab1) := processCodes abbrevExpand codes charOffset abbrevTable
    if done then out else out ++ read_zstr abbrevExpand rest co1 ab1

/-- C7: code 5 does shift the next code into the +52 alphabet (code 7 after a
5 decodes to table entry 53, the newline), but a code 6 in that alphabet is
not a 10-bit-literal sentinel: decoding the codes (5, 6, 8)(9, 5, 5) emits
table entry 52 (a space) for the 6 and then decodes 8 and 9 as ordinary
lowercase codes, producing " cd" instead of combining 8 and 9 into one
10-bit ZSCII literal. -/
theorem zstr_code6_in_A2_is_table_entry :
    read_zstr (fun _ _ => []) [0x94E5] 0 0 = [Char.ofNat 10] ∧
    read_zstr (fun _ _ => []) [0x14C8, 0xA4A5] 0 0 = [' ', 'c', 'd'] := by
  decide

/-! ## Lemmas about the stack operations (towards claims C6, C9, C10) -/

theorem getD_set_ne (l : List Nat) (i j v : Nat) (h : i ≠ j) :
    (l.set i v).getD j 0 = l.getD j 0 := by
  simp [List.getD, List.getElem?_set_ne h]

theorem getD_set_eq (l : List Nat) (i v : Nat) (h : i < l.length) :
    (l.set i v).getD i 0 = v := by
  simp [List.getD, List.getElem?_set_self, h]

/-- Reassembling the two big-endian bytes pushed by `push_word` recovers the
word modulo 2^16. -/
theorem pushWord_readback (w : Nat) :
    ((((w >>> 8) &&& 0xff) % 256) <<< 8) + (((w >>> 0) &&& 0xff) % 256) = w % 65536 := by
  have h1 := Nat.and_pow_two_sub_one_eq_mod (w >>> 8) 8
  have h2 := Nat.and_pow_two_sub_one_eq_mod (w >>> 0) 8
  have h3 : w >>> 8 = w / 2 ^ 8 := Nat.shiftRight_eq_div_pow w 8
  have h4 : w >>> 0 = w := Nat.shiftRight_zero
  rw [Nat.shiftLeft_eq]
  norm_num at h1 h2 h3 ⊢
  omega

/-- A stack-operation step that only advances `sp` by `k`, writes nothing
below the old `sp`, and leaves `fp`, `s0` and the array length alone. -/
def AdvOnly (s s' : ZStack) (k : Nat) : Prop :=
  s'.fp = s.fp ∧ s'.s0 = s.s0 ∧ s'.sp = s.sp + k ∧ s'.stack.length = s.stack.length ∧
  ∀ p, p < s.sp → s'.stack.getD p 0 = s.stack.getD p 0

theorem advOnly_refl (s : ZStack) : AdvOnly s s 0 :=
  ⟨rfl, rfl, rfl, rfl, fun _ _ => rfl⟩

theorem advOnly_trans {s s1 s2 : ZStack} {k1 k2 : Nat}
    (h1 : AdvOnly s s1 k1) (h2 : AdvOnly s1 s2 k2) : AdvOnly s s2 (k1 + k2) := by
  obtain ⟨f1, q1, p1, l1, b1⟩ := h1
  obtain ⟨f2, q2, p2, l2, b2⟩ := h2
  refine ⟨f2.trans f1, q2.trans q1, by omega, l2.trans l1, fun p hp => ?_⟩
  rw [b2 p (by omega), b1 p hp]

/-- Inversion of a successful `push_byte`. -/
theorem pushByte_ok {s s' : ZStack} {b : Nat} {u : Unit}
    (h : s.pushByte b = (.ok u, s')) :
    s.sp < STACK_SIZE ∧
    s' = { s with stack := s.stack.set s.sp (b % 256), sp := s.sp + 1 } := by
  unfold ZStack.pushByte at h
  split at h
  next hlt => cases h; exact ⟨hlt, rfl⟩
  next => simp at h

/-- A failed `push_byte` is a `StackOverflow` and leaves the state alone. -/
theorem pushByte_err {s s' : ZStack} {b : Nat} {e : ZErr}
    (h : s.pushByte b = (.error e, s')) :
    e = .StackOverflow "Pushed bytes off end of stack." ∧ s' = s := by
  unfold ZStack.pushByte at h
  split at h
  next => simp at h
  next => cases h; exact ⟨rfl, rfl⟩

/-- A successful `push_byte` advances `sp` by one and records the byte at the
old `sp`. -/
theorem pushByte_ok_spec {s s' : ZStack} {b : Nat} {u : Unit}
    (h : s.pushByte b = (.ok u, s')) :
    s.sp + 1 ≤ STACK_SIZE ∧ AdvOnly s s' 1 ∧
    (s.sp < s.stack.length → s'.stack.getD s.sp 0 = b % 256) := by
  obtain ⟨hlt, rfl⟩ := pushByte_ok h
  refine ⟨by omega, ⟨rfl, rfl, rfl, List.length_set .., fun p hp => ?_⟩, fun hl => ?_⟩
  · exact getD_set_ne _ _ _ _ (by omega)
  · exact getD_set_eq _ _ _ hl

/-- A successful `push_word` advances `sp` by two and records the two
big-endian bytes of the word at the old `sp`. -/
theorem pushWord_ok_spec {s s' : ZStack} {w : Nat} {u : Unit}
    (h : s.pushWord w = (.ok u, s')) :
    s.sp + 2 ≤ STACK_SIZE ∧ AdvOnly s s' 2 ∧
    (s.sp + 1 < s.stack.length → wordFromSlice s'.stack s.sp = w % 65536) := by
  unfold ZStack.pushWord at h
  cases h1 : s.pushByte ((w >>> 8) &&& 0xff) with
  | mk r1 mid =>
    rw [h1] at h
    cases r1 with
    | error e => simp at h
    | ok u1 =>
      obtain ⟨hl1, hadv1, hrd1⟩ := pushByte_ok_spec h1
      obtain ⟨hl2, hadv2, hrd2⟩ := pushByte_ok_spec h
      have hsp1 : mid.sp = s.sp + 1 := hadv1.2.2.1
      have hlen1 : mid.stack.length = s.stack.length := hadv1.2.2.2.1
      refine ⟨by omega, ?_, fun hl => ?_⟩
      · exact advOnly_trans hadv1 hadv2
      · have hb1 : s'.stack.getD s.sp 0 = ((w >>> 8) &&& 0xff) % 256 := by
          rw [hadv2.2.2.2.2 s.sp (by omega), hrd1 (by omega)]
        have hb2 : s'.stack.getD (s.sp + 1) 0 = ((w >>> 0) &&& 0xff) % 256 := by
          have hh := hrd2 (by omega)
          rwa [hsp1] at hh
        rw [wordFromSlice, byteFromSlice, byteFromSlice, hb1, hb2]
        exact pushWord_readback w

/-- What a failed stack push leaves behind: a `StackOverflow`, with `s0` and
the array length untouched (`fp`, `sp` and pushed bytes may differ). -/
def OverflowInv (s s' : ZStack) (e : ZErr) : Prop :=
  e = .StackOverflow "Pushed bytes off end of stack." ∧
  s'.s0 = s.s0 ∧ s'.stack.length = s.stack.length

theorem pushWord_err {s s' : ZStack} {w : Nat} {e : ZErr}
    (h : s.pushWord w = (.error e, s')) : OverflowInv s s' e := by
  unfold ZStack.pushWord at h
  cases h1 : s.pushByte ((w >>> 8) &&& 0xff) with
  | mk r1 mid =>
    rw [h1] at h
    cases r1 with
    | error e1 =>
      cases h
      obtain ⟨he, rfl⟩ := pushByte_err h1
      exact ⟨he, rfl, rfl⟩
    | ok u1 =>
      obtain ⟨_, hadv1, _⟩ := pushByte_ok_spec h1
      obtain ⟨he, Hmid⟩ := pushByte_err h
      subst Hmid
      exact ⟨he, hadv1.2.1, hadv1.2.2.2.1⟩

theorem pushAddr_ok_spec {s s' : ZStack} {a : Nat} {u : Unit}
    (h : s.pushAddr a = (.ok u, s')) :
    s.sp + 4 ≤ STACK_SIZE ∧ AdvOnly s s' 4 := by
  unfold ZStack.pushAddr at h
  cases h1 : s.pushWord ((a >>> 16) &&& 0xffff) with
  | mk r1 mid =>
    rw [h1] at h
    cases r1 with
    | error e => simp at h
    | ok u1 =>
      obtain ⟨hl1, hadv1, _⟩ := pushWord_ok_spec h1
      obtain ⟨hl2, hadv2, _⟩ := pushWord_ok_spec h
      have hsp1 : mid.sp = s.sp + 2 := hadv1.2.2.1
      exact ⟨by omega, advOnly_trans hadv1 hadv2⟩

theorem pushAddr_err {s s' : ZStack} {a : Nat} {e : ZErr}
    (h : s.pushAddr a = (.error e, s')) : OverflowInv s s' e := by
  unfold ZStack.pushAddr at h
  cases h1 : s.pushWord ((a >>> 16) &&& 0xffff) with
  | mk r1 mid =>
    rw [h1] at h
    cases r1 with
    | error e1 =>
      cases h
      exact pushWord_err h1
    | ok u1 =>
      obtain ⟨_, hadv1, _⟩ := pushWord_ok_spec h1
      obtain ⟨he, hq, hl⟩ := pushWord_err h
      exact ⟨he, hq.trans hadv1.2.1, hl.trans hadv1.2.2.2.1⟩

theorem pushZeroLocals_ok_spec : ∀ (n : Nat) {s s' : ZStack} {u : Unit},
    s.pushZeroLocals n = (.ok u, s') →
    AdvOnly s s' (2 * n) ∧ (0 < n → s'.sp ≤ STACK_SIZE)
  | 0, s, s', u, h => by
    unfold ZStack.pushZeroLocals at h
    cases h
    exact ⟨advOnly_refl s, fun hh => absurd hh (by omega)⟩
  | n + 1, s, s', u, h => by
    unfold ZStack.pushZeroLocals at h
    cases h1 : s.pushWord 0 with
    | mk r1 mid =>
      rw [h1] at h
      cases r1 with
      | error e => simp at h
      | ok u1 =>
        obtain ⟨hl1, hadv1, _⟩ := pushWord_ok_spec h1
        obtain ⟨hadv2, hle2⟩ := pushZeroLocals_ok_spec n h
        have hsp1 : mid.sp = s.sp + 2 := hadv1.2.2.1
        have hspn : s'.sp = mid.sp + 2 * n := hadv2.2.2.1
        refine ⟨?_, fun _ => ?_⟩
        · have hc := advOnly_trans hadv1 hadv2
          have : 2 + 2 * n = 2 * (n + 1) := by omega
          rwa [this] at hc
        · rcases Nat.eq_zero_or_pos n with hn | hn
          · omega
          · exact hle2 hn

theorem pushZeroLocals_err : ∀ (n : Nat) {s s' : ZStack} {e : ZErr},
    s.pushZeroLocals n = (.error e, s') → OverflowInv s s' e
  | 0, s, s', e, h => by
    unfold ZStack.pushZeroLocals at h
    simp at h
  | n + 1, s, s', e, h => by
    unfold ZStack.pushZeroLocals at h
    cases h1 : s.pushWord 0 with
    | mk r1 mid =>
      rw [h1] at h
      cases r1 with
      | error e1 =>
        cases h
        exact pushWord_err h1
      | ok u1 =>
        obtain ⟨_, hadv1, _⟩ := pushWord_ok_spec h1
        obtain ⟨he, hq, hl⟩ := pushZeroLocals_err n h
        exact ⟨he, hq.trans hadv1.2.1, hl.trans hadv1.2.2.2.1⟩

/-- `write_local` always succeeds; it changes only the two bytes of local
slot `l` (both at or above `fp + LOCAL_VAR_OFFSET`). -/
theorem writeLocal_spec (s : ZStack) (l v : Nat) :
    ∃ s', s.writeLocal l v = (.ok (), s') ∧
      s'.fp = s.fp ∧ s'.s0 = s.s0 ∧ s'.sp = s.sp ∧
      s'.stack.length = s.stack.length ∧
      ∀ p, p < s.fp + ZStack.LOCAL_VAR_OFFSET → s'.stack.getD p 0 = s.stack.getD p 0 := by
  refine ⟨_, rfl, rfl, rfl, rfl, ?_, fun p hp => ?_⟩
  · simp [wordToSlice, byteToSlice]
  · unfold wordToSlice byteToSlice
    rw [getD_set_ne _ _ _ _ (by omega), getD_set_ne _ _ _ _ (by omega)]

/-- The operand-copying loop of `push_frame` always succeeds; it changes only
bytes at or above `fp + LOCAL_VAR_OFFSET`. -/
theorem setLocals_spec : ∀ (ops : List Nat) (idx n : Nat) (s : ZStack),
    ∃ s', s.setLocalsFromOperands ops idx n = (.ok (), s') ∧
      s'.fp = s.fp ∧ s'.s0 = s.s0 ∧ s'.sp = s.sp ∧
      s'.stack.length = s.stack.length ∧
      ∀ p, p < s.fp + ZStack.LOCAL_VAR_OFFSET → s'.stack.getD p 0 = s.stack.getD p 0
  | [], idx, n, s => ⟨s, rfl, rfl, rfl, rfl, rfl, fun _ _ => rfl⟩
  | op :: rest, idx, n, s => by
    unfold ZStack.setLocalsFromOperands
    by_cases hc : n ≤ idx
    · rw [if_pos hc]
      exact ⟨s, rfl, rfl, rfl, rfl, rfl, fun _ _ => rfl⟩
    · rw [if_neg hc]
      obtain ⟨sW, hW, hf, hq, hp, hl, hb⟩ := writeLocal_spec s idx op
      obtain ⟨s', h', hf', hq', hp', hl', hb'⟩ := setLocals_spec rest (idx + 1) n sW
      rw [hW]
      refine ⟨s', h', hf'.trans hf, hq'.trans hq, hp'.trans hp, hl'.trans hl,
        fun p hpp => ?_⟩
      rw [hb' p (by rw [hf]; exact hpp), hb p hpp]

/-- Inversion of a successful `pop_byte`. -/
theorem popByte_ok_inv {s s' : ZStack} {b : Nat}
    (h : s.popByte = (.ok b, s')) :
    s.s0 < s.sp ∧ b = s.stack.getD (s.sp - 1) 0 ∧ s' = { s with sp := s.sp - 1 } := by
  unfold ZStack.popByte at h
  split at h
  next hlt => cases h; exact ⟨hlt, rfl, rfl⟩
  next => simp at h

/-- Inversion of a failed `pop_byte`. -/
theorem popByte_err_inv {s s' : ZStack} {e : ZErr}
    (h : s.popByte = (.error e, s')) :
    s.sp ≤ s.s0 ∧ e = .StackUnderflow "Popped byte off empty stack." ∧ s' = s := by
  unfold ZStack.popByte at h
  split at h
  next => simp at h
  next hlt => cases h; exact ⟨by omega, rfl, rfl⟩

/-- `pop_frame` under the sentinel check: restore `sp` to the old `fp`,
`fp` to the saved one, and recompute `s0` as the exposed frame's locals
end. -/
theorem popFrame_ok_of {s : ZStack} (h : s.savedFp < STACK_SIZE) :
    s.popFrame = (.ok (), ⟨s.stack, s.savedFp,
      s.savedFp + ZStack.LOCAL_VAR_OFFSET +
        2 * byteFromSlice s.stack (s.savedFp + ZStack.NUM_LOCALS_OFFSET), s.fp⟩) := by
  unfold ZStack.popFrame
  rw [if_neg (by omega)]
  rfl

/-- Inversion of a successful `push_frame` from a state whose array has the
full `STACK_SIZE` length and whose `fp` fits in 16 bits: the new frame starts
at the old `sp`, `sp` and `s0` land just past the `8 + 2·(n % 256)` frame
bytes, nothing below the old `sp` changes, and the stored saved-fp word and
local-count byte read back as the old `fp` and `n % 256`. -/
theorem pushFrame_ok_spec {s s' : ZStack} {rp n : Nat} {rv : ZVariable} {ops : List Nat}
    {u : Unit} (h : s.pushFrame rp n rv ops = (.ok u, s'))
    (hlen : s.stack.length = STACK_SIZE) (hfp : s.fp < 65536) :
    s'.fp = s.sp ∧
    s'.sp = s.sp + ZStack.LOCAL_VAR_OFFSET + 2 * (n % 256) ∧
    s'.s0 = s'.sp ∧
    s'.sp ≤ STACK_SIZE ∧
    s'.stack.length = STACK_SIZE ∧
    (∀ p, p < s.sp → s'.stack.getD p 0 = s.stack.getD p 0) ∧
    s'.savedFp = s.fp ∧
    s'.numLocals = n % 256 := by
  rw [ZStack.pushFrame] at h
  dsimp only [] at h
  cases h1 : s.pushWord (s.fp % 65536) with
  | mk r1 sA =>
    rw [h1] at h
    cases r1 with
    | error e => simp at h
    | ok u1 =>
      dsimp only [] at h
      obtain ⟨hl1, hadvA, hrdA⟩ := pushWord_ok_spec h1
      obtain ⟨_, _, hspA, hlenA, hbA⟩ := hadvA
      have hwordA : wordFromSlice sA.stack s.sp = s.fp := by
        rw [hrdA (by omega), Nat.mod_mod_of_dvd _ (dvd_refl 65536), Nat.mod_eq_of_lt hfp]
      cases h2 : (({ sA with fp := s.sp } : ZStack).pushAddr rp) with
      | mk r2 sC =>
        rw [h2] at h
        cases r2 with
        | error e => simp at h
        | ok u2 =>
          dsimp only [] at h
          obtain ⟨hl2, hadvB⟩ := pushAddr_ok_spec h2
          obtain ⟨hfC, hqC, hspC, hlenC, hbC⟩ := hadvB
          cases h3 : sC.pushByte rv.toByte with
          | mk r3 sD =>
            rw [h3] at h
            cases r3 with
            | error e => simp at h
            | ok u3 =>
              dsimp only [] at h
              obtain ⟨hl3, hadvC, _⟩ := pushByte_ok_spec h3
              obtain ⟨hfD, hqD, hspD, hlenD, hbD⟩ := hadvC
              cases h4 : sD.pushByte (n % 256) with
              | mk r4 sE =>
                rw [h4] at h
                cases r4 with
                | error e => simp at h
                | ok u4 =>
                  dsimp only [] at h
                  obtain ⟨hl4, hadvD, hrdD⟩ := pushByte_ok_spec h4
                  obtain ⟨hfE, hqE, hspE, hlenE, hbE⟩ := hadvD
                  cases h5 : sE.pushZeroLocals (n % 256) with
                  | mk r5 sF =>
                    rw [h5] at h
                    cases r5 with
                    | error e => simp at h
                    | ok u5 =>
                      dsimp only [] at h
                      obtain ⟨hadvE, hsleF⟩ := pushZeroLocals_ok_spec _ h5
                      obtain ⟨hfF, hqF, hspF, hlenF, hbF⟩ := hadvE
                      obtain ⟨sG, hGeq, hfG, hqG, hspG, hlenG, hbG⟩ :=
                        setLocals_spec ops 0 (n % 256) sF
                      rw [hGeq] at h
                      dsimp only [] at h
                      cases h
                      have hspB : ({ sA with fp := s.sp } : ZStack).sp = sA.sp := rfl
                      have hlenB : ({ sA with fp := s.sp } : ZStack).stack.length
                          = sA.stack.length := rfl
                      have eRecFp : ({ sA with fp := s.sp } : ZStack).fp = s.sp := rfl
                      have hLV : ZStack.LOCAL_VAR_OFFSET = 8 := rfl
                      have eC : sC.sp = s.sp + 6 := by omega
                      have eD : sD.sp = s.sp + 7 := by omega
                      have eE : sE.sp = s.sp + 8 := by omega
                      have eF : sF.sp = s.sp + 8 + 2 * (n % 256) := by omega
                      have hfpFinal : sG.fp = s.sp := by omega
                      have hspFinal : sG.sp = s.sp + 8 + 2 * (n % 256) := by omega
                      have hlenFinal : sG.stack.length = STACK_SIZE := by omega
                      have hlow : ∀ p, p < s.sp → sG.stack.getD p 0 = s.stack.getD p 0 := by
                        intro p hp
                        rw [hbG p (by omega), hbF p (by omega), hbE p (by omega),
                          hbD p (by omega), hbC p (by omega), hbA p hp]
                      have hkeep : ∀ p, p < s.sp + 8 →
                          sG.stack.getD p 0 = sE.stack.getD p 0 := by
                        intro p hp
                        rw [hbG p (by omega), hbF p (by omega)]
                      have hkeepE : ∀ p, p < s.sp + 2 →
                          sE.stack.getD p 0 = sA.stack.getD p 0 := by
                        intro p hp
                        rw [hbE p (by omega), hbD p (by omega), hbC p (by omega)]
                      refine ⟨hfpFinal, ?_, rfl, ?_, hlenFinal, hlow, ?_, ?_⟩
                      · show sG.sp = s.sp + ZStack.LOCAL_VAR_OFFSET + 2 * (n % 256)
                        omega
                      · show sG.sp ≤ STACK_SIZE
                        rcases Nat.eq_zero_or_pos (n % 256) with hz | hpos
                        · omega
                        · have hle := hsleF hpos
                          omega
                      · show wordFromSlice sG.stack (sG.fp + ZStack.SAVED_PC_OFFSET) = s.fp
                        rw [ZStack.SAVED_PC_OFFSET, Nat.add_zero, hfpFinal]
                        unfold wordFromSlice byteFromSlice at hwordA ⊢
                        rw [hkeep s.sp (by omega), hkeep (s.sp + 1) (by omega),
                          hkeepE s.sp (by omega), hkeepE (s.sp + 1) (by omega)]
                        exact hwordA
                      · show byteFromSlice sG.stack (sG.fp + ZStack.NUM_LOCALS_OFFSET)
                          = n % 256
                        unfold byteFromSlice
                        rw [ZStack.NUM_LOCALS_OFFSET, hfpFinal]
                        rw [hkeep (s.sp + 7) (by omega)]
                        have hlenD7 : sD.stack.length = STACK_SIZE := by omega
                        have hrd := hrdD (by omega)
                        rw [eD] at hrd
                        rw [hrd]
                        exact Nat.mod_mod_of_dvd _ (dvd_refl 256)

/-- Inversion of a failed `push_frame`: the error is a `StackOverflow`, and
`s0` and the array length are untouched — but nothing else is promised (the
frame pointer, stack pointer and pushed bytes may already be modified). -/
theorem pushFrame_err_spec {s s' : ZStack} {rp n : Nat} {rv : ZVariable} {ops : List Nat}
    {e : ZErr} (h : s.pushFrame rp n rv ops = (.error e, s')) :
    e = .StackOverflow "Pushed bytes off end of stack." ∧
    s'.s0 = s.s0 ∧ s'.stack.length = s.stack.length := by
  rw [ZStack.pushFrame] at h
  dsimp only [] at h
  cases h1 : s.pushWord (s.fp % 65536) with
  | mk r1 sA =>
    rw [h1] at h
    cases r1 with
    | error e1 =>
      dsimp only [] at h
      cases h
      exact pushWord_err h1
    | ok u1 =>
      dsimp only [] at h
      obtain ⟨_, hadvA, _⟩ := pushWord_ok_spec h1
      have hqA : sA.s0 = s.s0 := hadvA.2.1
      have hlenA : sA.stack.length = s.stack.length := hadvA.2.2.2.1
      have hqB : ({ sA with fp := s.sp } : ZStack).s0 = sA.s0 := rfl
      have hlenB : ({ sA with fp := s.sp } : ZStack).stack.length = sA.stack.length := rfl
      cases h2 : (({ sA with fp := s.sp } : ZStack).pushAddr rp) with
      | mk r2 sC =>
        rw [h2] at h
        cases r2 with
        | error e2 =>
          dsimp only [] at h
          cases h
          obtain ⟨he, hq, hl⟩ := pushAddr_err h2
          exact ⟨he, by omega, by omega⟩
        | ok u2 =>
          dsimp only [] at h
          obtain ⟨_, hadvB⟩ := pushAddr_ok_spec h2
          have hqC : sC.s0 = s.s0 := by have := hadvB.2.1; omega
          have hlenC : sC.stack.length = s.stack.length := by
            have := hadvB.2.2.2.1; omega
          cases h3 : sC.pushByte rv.toByte with
          | mk r3 sD =>
            rw [h3] at h
            cases r3 with
            | error e3 =>
              dsimp only [] at h
              cases h
              obtain ⟨he, rfl⟩ := pushByte_err h3
              exact ⟨he, hqC, hlenC⟩
            | ok u3 =>
              dsimp only [] at h
              obtain ⟨_, hadvC, _⟩ := pushByte_ok_spec h3
              have hqD : sD.s0 = s.s0 := by have := hadvC.2.1; omega
              have hlenD : sD.stack.length = s.stack.length := by
                have := hadvC.2.2.2.1; omega
              cases h4 : sD.pushByte (n % 256) with
              | mk r4 sE =>
                rw [h4] at h
                cases r4 with
                | error e4 =>
                  dsimp only [] at h
                  cases h
                  obtain ⟨he, rfl⟩ := pushByte_err h4
                  exact ⟨he, hqD, hlenD⟩
                | ok u4 =>
                  dsimp only [] at h
                  obtain ⟨_, hadvD, _⟩ := pushByte_ok_spec h4
                  have hqE : sE.s0 = s.s0 := by have := hadvD.2.1; omega
                  have hlenE : sE.stack.length = s.stack.length := by
                    have := hadvD.2.2.2.1; omega
                  cases h5 : sE.pushZeroLocals (n % 256) with
                  | mk r5 sF =>
                    rw [h5] at h
                    cases r5 with
                    | error e5 =>
                      dsimp only [] at h
                      cases h
                      obtain ⟨he, hq, hl⟩ := pushZeroLocals_err _ h5
                      exact ⟨he, by omega, by omega⟩
                    | ok u5 =>
                      dsimp only [] at h
                      obtain ⟨hadvE, _⟩ := pushZeroLocals_ok_spec _ h5
                      have hqF : sF.s0 = s.s0 := by have := hadvE.2.1; omega
                      have hlenF : sF.stack.length = s.stack.length := by
                        have := hadvE.2.2.2.1; omega
                      obtain ⟨sG, hGeq, _, hqG, _, hlenG, _⟩ :=
                        setLocals_spec ops 0 (n % 256) sF
                      rw [hGeq] at h
                      dsimp only [] at h
                      cases h

/-! ## Claim C6: stack overflow on `push_frame` -/

/-- A stack one successful 255-local frame above the fresh stack
(`sp = s0 = 526`, `fp = 8`): the next 255-local frame cannot fit. -/
def overflowStack : ZStack := (ZStack.new.pushFrame 0 255 ZVariable.Stack []).2

/-- C6 counterexample: pushing a frame that does not fit fails with
`StackOverflow`, but the stack state is *not* left exactly as it was: the
frame pointer has already moved to the new frame (8 → 526) and the stack
pointer has consumed the whole remaining capacity (526 → 1024) — a partial
frame is visible. -/
theorem pushFrame_overflow_partial_frame :
    (overflowStack.pushFrame 0 255 ZVariable.Stack []).1 =
      .error (.StackOverflow "Pushed bytes off end of stack.") ∧
    overflowStack.fp = 8 ∧
    (overflowStack.pushFrame 0 255 ZVariable.Stack []).2.fp = 526 ∧
    overflowStack.sp = 526 ∧
    (overflowStack.pushFrame 0 255 ZVariable.Stack []).2.sp = 1024 := by
  decide

/-- C6 amended: when the frame does not fit in the remaining capacity,
`push_frame` fails with `StackOverflow`, and the eval-area base `s0` and the
array length are unchanged — but no more: the frame pointer, stack pointer
and stored frame bytes may already be modified (no partial-frame rollback,
as the counterexample shows). -/
theorem pushFrame_overflow_behavior (s : ZStack) (rp n : Nat) (rv : ZVariable)
    (ops : List Nat) (hlen : s.stack.length = STACK_SIZE) (hfp : s.fp < 65536)
    (hnofit : STACK_SIZE < s.sp + ZStack.LOCAL_VAR_OFFSET + 2 * (n % 256)) :
    ∃ e s', s.pushFrame rp n rv ops = (.error e, s') ∧
      e = .StackOverflow "Pushed bytes off end of stack." ∧
      s'.s0 = s.s0 ∧ s'.stack.length = s.stack.length := by
  cases hres : s.pushFrame rp n rv ops with
  | mk r s' =>
    cases r with
    | ok u =>
      obtain ⟨_, hsp, _, hle, _⟩ := pushFrame_ok_spec hres hlen hfp
      omega
    | error e =>
      obtain ⟨he, hq, hl⟩ := pushFrame_err_spec hres
      exact ⟨e, s', rfl, he, hq, hl⟩

/-- `init_new_stack` only pushes the 8 root-frame bytes. -/
theorem initNewStack_adv {s sI : ZStack} {u : Unit}
    (h : s.initNewStack = (.ok u, sI)) : AdvOnly s sI 8 := by
  rw [ZStack.initNewStack] at h
  cases h1 : s.pushWord (STACK_SIZE % 65536) with
  | mk r1 sA =>
    rw [h1] at h
    cases r1 with
    | error e => simp at h
    | ok u1 =>
      dsimp only [] at h
      obtain ⟨_, hadvA, _⟩ := pushWord_ok_spec h1
      cases h2 : sA.pushAddr 0 with
      | mk r2 sB =>
        rw [h2] at h
        cases r2 with
        | error e => simp at h
        | ok u2 =>
          dsimp only [] at h
          obtain ⟨_, hadvB⟩ := pushAddr_ok_spec h2
          cases h3 : sB.pushByte (ZVariable.Global 0xef).toByte with
          | mk r3 sC =>
            rw [h3] at h
            cases r3 with
            | error e => simp at h
            | ok u3 =>
              dsimp only [] at h
              obtain ⟨_, hadvC, _⟩ := pushByte_ok_spec h3
              obtain ⟨_, hadvD, _⟩ := pushByte_ok_spec h
              exact advOnly_trans (advOnly_trans (advOnly_trans hadvA hadvB) hadvC) hadvD

/-- Two pairs with equal components are equal. -/
theorem pairEq {α β : Type} {p q : α × β} (h1 : p.1 = q.1) (h2 : p.2 = q.2) : p = q := by
  cases p
  cases q
  cases h1
  cases h2
  rfl

/-- The fresh stack keeps the full `STACK_SIZE`-byte array. -/
theorem newStack_length : ZStack.new.stack.length = STACK_SIZE := by
  have h1 : (({ stack := List.replicate STACK_SIZE 0, fp := 0, s0 := 0, sp := 0 }
      : ZStack).initNewStack).1 = Except.ok () := by decide
  have hpair : ({ stack := List.replicate STACK_SIZE 0, fp := 0, s0 := 0, sp := 0 }
      : ZStack).initNewStack =
      (Except.ok (), (({ stack := List.replicate STACK_SIZE 0, fp := 0, s0 := 0, sp := 0 }
        : ZStack).initNewStack).2) := pairEq h1 rfl
  have hadv := initNewStack_adv hpair
  have hlen := hadv.2.2.2.1
  have hbase : ({ stack := List.replicate STACK_SIZE 0, fp := 0, s0 := 0, sp := 0 }
      : ZStack).stack.length = STACK_SIZE := by simp
  have hnew : ZStack.new =
      { (({ stack := List.replicate STACK_SIZE 0, fp := 0, s0 := 0, sp := 0 }
          : ZStack).initNewStack).2 with
        s0 := (({ stack := List.replicate STACK_SIZE 0, fp := 0, s0 := 0, sp := 0 }
          : ZStack).initNewStack).2.sp } := by
    rw [ZStack.new, hpair]
  rw [hnew]
  show ((({ stack := List.replicate STACK_SIZE 0, fp := 0, s0 := 0, sp := 0 }
      : ZStack).initNewStack).2).stack.length = STACK_SIZE
  exact hlen.trans hbase

/-- Witness for C6's amended theorem at the concrete overflowing push. -/
theorem pushFrame_overflow_behavior_witness :
    ∃ e s', overflowStack.pushFrame 0 255 ZVariable.Stack [] = (.error e, s') ∧
      e = .StackOverflow "Pushed bytes off end of stack." ∧
      s'.s0 = overflowStack.s0 ∧ s'.stack.length = overflowStack.stack.length := by
  have hpair : ZStack.new.pushFrame 0 255 ZVariable.Stack [] = (.ok (), overflowStack) :=
    pairEq (by decide) rfl
  have hlenNew : ZStack.new.stack.length = STACK_SIZE := newStack_length
  have hfpNew : ZStack.new.fp < 65536 := by decide
  obtain ⟨hfpO, hspO, _, _, hlenO, _, _, _⟩ := pushFrame_ok_spec hpair hlenNew hfpNew
  have hspNew : ZStack.new.sp = 8 := by decide
  have hLV : ZStack.LOCAL_VAR_OFFSET = 8 := rfl
  have hSS : STACK_SIZE = 1024 := rfl
  exact pushFrame_overflow_behavior overflowStack 0 255 ZVariable.Stack []
    hlenO (by omega) (by omega)

/-! ## Claim C9: push_frame / pop_frame round trip -/

/-- Well-formedness of a stack state: full-length array, `s0` sits exactly at
the current frame's locals end, and `s0 ≤ sp ≤ STACK_SIZE`.  `ZStack.new`
satisfies it, and every reachable state does (see the C10 development). -/
def ZStack.wellFormed (s : ZStack) : Prop :=
  s.stack.length = STACK_SIZE ∧
  s.s0 = s.fp + ZStack.LOCAL_VAR_OFFSET + 2 * s.numLocals ∧
  s.s0 ≤ s.sp ∧ s.sp ≤ STACK_SIZE

instance (s : ZStack) : Decidable s.wellFormed := by
  unfold ZStack.wellFormed
  infer_instance

/-- `read_local` only looks at `num_locals`, `fp` and the local-slot bytes. -/
theorem readLocal_congr {a b : ZStack} (hnum : a.numLocals = b.numLocals)
    (hfp : a.fp = b.fp)
    (hbytes : ∀ p, p < b.fp + ZStack.LOCAL_VAR_OFFSET + 2 * b.numLocals →
      a.stack.getD p 0 = b.stack.getD p 0) :
    ∀ l, a.readLocal l = b.readLocal l := by
  intro l
  rw [ZStack.readLocal, ZStack.readLocal, hnum, hfp]
  by_cases hcase : b.numLocals ≤ l
  · rw [if_pos hcase, if_pos hcase]
  · rw [if_neg hcase, if_neg hcase]
    congr 1
    unfold wordFromSlice byteFromSlice
    have hLV : ZStack.LOCAL_VAR_OFFSET = 8 := rfl
    rw [hbytes (b.fp + ZStack.LOCAL_VAR_OFFSET + l * 2) (by omega),
      hbytes (b.fp + ZStack.LOCAL_VAR_OFFSET + l * 2 + 1) (by omega)]

/-- C9: from any well-formed state, a successful `push_frame` immediately
followed by `pop_frame` succeeds and restores the stack pointer, frame
pointer, eval-area base, every byte below the old `sp` (hence the exposed
frame's locals and eval-area contents), and the return bookkeeping (return
pc and return variable) to their pre-push values. -/
theorem pushFrame_popFrame_roundtrip (s : ZStack) (hwf : s.wellFormed) (rp n : Nat)
    (rv : ZVariable) (ops : List Nat) (s1 : ZStack)
    (hpush : s.pushFrame rp n rv ops = (.ok (), s1)) :
    ∃ s2, s1.popFrame = (.ok (), s2) ∧ s2.sp = s.sp ∧ s2.fp = s.fp ∧ s2.s0 = s.s0 ∧
      (∀ p, p < s.sp → s2.stack.getD p 0 = s.stack.getD p 0) ∧
      s2.returnPc = s.returnPc ∧ s2.returnVariable = s.returnVariable ∧
      s2.numLocals = s.numLocals ∧ (∀ l, s2.readLocal l = s.readLocal l) := by
  obtain ⟨hlen, hs0, hs0sp, hspSS⟩ := hwf
  have hLV : ZStack.LOCAL_VAR_OFFSET = 8 := rfl
  have hSS : STACK_SIZE = 1024 := rfl
  have hfp16 : s.fp < 65536 := by omega
  obtain ⟨hfp1, hsp1, hs01, hsple, hlen1, hlow, hsaved, hnum⟩ :=
    pushFrame_ok_spec hpush hlen hfp16
  have hsavedlt : s1.savedFp < STACK_SIZE := by omega
  have hpop := popFrame_ok_of hsavedlt
  have hNL : ZStack.NUM_LOCALS_OFFSET = 7 := rfl
  have hnumb : byteFromSlice s1.stack (s.fp + ZStack.NUM_LOCALS_OFFSET)
      = s.numLocals := by
    show s1.stack.getD (s.fp + ZStack.NUM_LOCALS_OFFSET) 0 = s.numLocals
    rw [hlow (s.fp + ZStack.NUM_LOCALS_OFFSET) (by omega)]
    rfl
  rw [hsaved, hnumb, hfp1, ← hs0] at hpop
  refine ⟨_, hpop, rfl, rfl, rfl, hlow, ?_, ?_, hnumb, ?_⟩
  · show longWordFromSlice s1.stack (s.fp + ZStack.RETURN_PC_OFFSET) = s.returnPc
    have hRP : ZStack.RETURN_PC_OFFSET = 2 := rfl
    unfold ZStack.returnPc longWordFromSlice byteFromSlice
    rw [hlow (s.fp + ZStack.RETURN_PC_OFFSET) (by omega),
      hlow (s.fp + ZStack.RETURN_PC_OFFSET + 1) (by omega),
      hlow (s.fp + ZStack.RETURN_PC_OFFSET + 2) (by omega),
      hlow (s.fp + ZStack.RETURN_PC_OFFSET + 3) (by omega)]
  · show ZVariable.fromByte
        (byteFromSlice s1.stack (s.fp + ZStack.RETURN_VAR_OFFSET)) = s.returnVariable
    have hRV : ZStack.RETURN_VAR_OFFSET = 6 := rfl
    unfold ZStack.returnVariable byteFromSlice
    rw [hlow (s.fp + ZStack.RETURN_VAR_OFFSET) (by omega)]
  · refine readLocal_congr hnumb rfl (fun p hp => ?_)
    exact hlow p (by omega)

/-- Witness for C9: the round trip at the fresh stack with a two-local frame
(arguments 7 and 22, return variable L0, return pc 0x1234). -/
theorem pushFrame_popFrame_roundtrip_witness :
    ∃ s2, ((ZStack.new.pushFrame 0x1234 2 (ZVariable.Local 0) [7, 22]).2).popFrame =
        (.ok (), s2) ∧
      s2.sp = ZStack.new.sp ∧ s2.fp = ZStack.new.fp ∧ s2.s0 = ZStack.new.s0 ∧
      (∀ p, p < ZStack.new.sp → s2.stack.getD p 0 = ZStack.new.stack.getD p 0) ∧
      s2.returnPc = ZStack.new.returnPc ∧
      s2.returnVariable = ZStack.new.returnVariable ∧
      s2.numLocals = ZStack.new.numLocals ∧
      (∀ l, s2.readLocal l = ZStack.new.readLocal l) :=
  pushFrame_popFrame_roundtrip ZStack.new
    ⟨newStack_length, by decide, by decide, by decide⟩
    0x1234 2 (ZVariable.Local 0) [7, 22] _ (pairEq (by decide) rfl)

/-! ## Claim C10: reachable states never pop below the eval-area base -/

/-- The saved-frame-pointer word of the frame starting at `fp` in array `b`
(what `ZStack::saved_fp` reads). -/
def savedFpAt (b : List Nat) (fp : Nat) : Nat :=
  wordFromSlice b (fp + ZStack.SAVED_PC_OFFSET)

/-- The local-count byte of the frame starting at `fp` in array `b` (what
`ZStack::num_locals` reads). -/
def numLocalsAt (b : List Nat) (fp : Nat) : Nat :=
  byteFromSlice b (fp + ZStack.NUM_LOCALS_OFFSET)

theorem savedFpAt_eq (s : ZStack) : savedFpAt s.stack s.fp = s.savedFp := rfl

theorem numLocalsAt_eq (s : ZStack) : numLocalsAt s.stack s.fp = s.numLocals := rfl

/-- The chain of frames hanging off frame pointer `fp`: either this is the
root frame (sentinel saved fp = `STACK_SIZE`), or the saved fp points at a
well-placed frame below whose frame record (header and locals) ends at or
before `fp`. -/
inductive FrameChain (b : List Nat) : Nat → Prop where
  | root (fp : Nat) (h : savedFpAt b fp = STACK_SIZE) : FrameChain b fp
  | link (fp : Nat)
      (hlt : savedFpAt b fp < STACK_SIZE)
      (hchain : FrameChain b (savedFpAt b fp))
      (hle : savedFpAt b fp + ZStack.LOCAL_VAR_OFFSET +
        2 * numLocalsAt b (savedFpAt b fp) ≤ fp) :
      FrameChain b fp

/-- Case analysis on a frame chain. -/
theorem frameChain_inv {b : List Nat} {fp : Nat} (hc : FrameChain b fp) :
    savedFpAt b fp = STACK_SIZE ∨
    (savedFpAt b fp < STACK_SIZE ∧ FrameChain b (savedFpAt b fp) ∧
      savedFpAt b fp + ZStack.LOCAL_VAR_OFFSET +
        2 * numLocalsAt b (savedFpAt b fp) ≤ fp) := by
  cases hc with
  | root fp2 h => exact .inl h
  | link fp2 hlt hchain hle => exact .inr ⟨hlt, hchain, hle⟩

/-- A frame chain only looks at bytes strictly below `fp + 8`, so any write
at or above that position preserves it. -/
theorem frameChain_congr : ∀ {b : List Nat} {fp : Nat}, FrameChain b fp →
    ∀ (b' : List Nat),
    (∀ p, p < fp + ZStack.LOCAL_VAR_OFFSET → b'.getD p 0 = b.getD p 0) →
    FrameChain b' fp := by
  intro b fp hc
  induction hc with
  | root fp h =>
    intro b' hb
    refine FrameChain.root _ ?_
    have hLV : ZStack.LOCAL_VAR_OFFSET = 8 := rfl
    have hSP : ZStack.SAVED_PC_OFFSET = 0 := rfl
    unfold savedFpAt wordFromSlice byteFromSlice at h ⊢
    rw [hb _ (by omega), hb _ (by omega)]
    exact h
  | link fp hlt hchain hle ih =>
    intro b' hb
    have hLV : ZStack.LOCAL_VAR_OFFSET = 8 := rfl
    have hSP : ZStack.SAVED_PC_OFFSET = 0 := rfl
    have hNL : ZStack.NUM_LOCALS_OFFSET = 7 := rfl
    have hword : savedFpAt b' fp = savedFpAt b fp := by
      unfold savedFpAt wordFromSlice byteFromSlice
      rw [hb _ (by omega), hb _ (by omega)]
    refine FrameChain.link _ ?_ ?_ ?_
    · rw [hword]; exact hlt
    · rw [hword]
      refine ih b' (fun p hp => hb p (by omega))
    · rw [hword]
      have hnb : numLocalsAt b' (savedFpAt b fp) = numLocalsAt b (savedFpAt b fp) := by
        unfold numLocalsAt byteFromSlice
        exact hb _ (by omega)
      rw [hnb]
      exact hle

/-- The operations through which the interpreter drives the stack (the
`Stack` trait surface that mutates state). -/
inductive StackOp where
  | pushByteOp (b : Nat)
  | popByteOp
  | pushWordOp (w : Nat)
  | popWordOp
  | writeLocalOp (l v : Nat)
  | pushFrameOp (returnPc numLocals : Nat) (returnVar : ZVariable) (operands : List Nat)
  | popFrameOp

/-- Apply one stack operation (the value a pop returns is dropped; only the
state evolution matters for reachability). -/
def applyOp (s : ZStack) : StackOp → Except ZErr Unit × ZStack
  | .pushByteOp b => s.pushByte b
  | .popByteOp => ((s.popByte).1.map fun _ => (), (s.popByte).2)
  | .pushWordOp w => s.pushWord w
  | .popWordOp => ((s.popWord).1.map fun _ => (), (s.popWord).2)
  | .writeLocalOp l v => s.writeLocal l v
  | .pushFrameOp rp n rv ops => s.pushFrame rp n rv ops
  | .popFrameOp => s.popFrame

/-- States reachable from `ZStack::new` by successful stack operations (a
failed operation aborts the interpreter, so only successes continue). -/
inductive Reachable : ZStack → Prop where
  | init : Reachable ZStack.new
  | step {s s' : ZStack} (op : StackOp) :
      Reachable s → applyOp s op = (.ok (), s') → Reachable s'

/-- The inductive invariant: full-length array, `s0` exactly at the current
frame's locals end, `s0 ≤ sp ≤ STACK_SIZE`, and a well-formed frame chain. -/
def StackInv (s : ZStack) : Prop :=
  s.stack.length = STACK_SIZE ∧
  s.s0 = s.fp + ZStack.LOCAL_VAR_OFFSET + 2 * s.numLocals ∧
  s.s0 ≤ s.sp ∧ s.sp ≤ STACK_SIZE ∧
  FrameChain s.stack s.fp

/-- The fresh stack satisfies the invariant. -/
theorem stackInv_init : StackInv ZStack.new :=
  ⟨newStack_length, by decide, by decide, by decide,
    FrameChain.root _ (by decide)⟩

/-- A step that only pushes bytes above `sp` preserves the invariant. -/
theorem stackInv_adv_step {s s' : ZStack} {k : Nat} (hInv : StackInv s)
    (hadv : AdvOnly s s' k) (hsp : s'.sp ≤ STACK_SIZE) : StackInv s' := by
  obtain ⟨hlen, hs0, hs0sp, hspSS, hchain⟩ := hInv
  obtain ⟨hf, hq, hp, hl, hb⟩ := hadv
  have hLV : ZStack.LOCAL_VAR_OFFSET = 8 := rfl
  have hNL : ZStack.NUM_LOCALS_OFFSET = 7 := rfl
  have hnum : s'.numLocals = s.numLocals := by
    show byteFromSlice s'.stack (s'.fp + ZStack.NUM_LOCALS_OFFSET) = s.numLocals
    rw [hf]
    unfold byteFromSlice
    rw [hb _ (by omega)]
    rfl
  refine ⟨by omega, by rw [hq, hnum, hf]; exact hs0, by omega, hsp, ?_⟩
  rw [hf]
  exact frameChain_congr hchain s'.stack (fun p hp2 => hb p (by omega))

/-- Inversion of a successful `pop_word`: two byte pops. -/
theorem popWord_ok_inv {s s' : ZStack} {w : Nat}
    (h : s.popWord = (.ok w, s')) :
    s.s0 + 2 ≤ s.sp ∧ s' = { s with sp := s.sp - 2 } := by
  unfold ZStack.popWord at h
  cases h1 : s.popByte with
  | mk r1 mid =>
    rw [h1] at h
    cases r1 with
    | error e => simp at h
    | ok b1 =>
      dsimp only [] at h
      obtain ⟨hlt1, _, rfl⟩ := popByte_ok_inv h1
      cases h2 : ({ s with sp := s.sp - 1 } : ZStack).popByte with
      | mk r2 t2 =>
        rw [h2] at h
        cases r2 with
        | error e => simp at h
        | ok b2 =>
          dsimp only [] at h
          cases h
          obtain ⟨hlt2, _, rfl⟩ := popByte_ok_inv h2
          have h1' : s.s0 < s.sp - 1 := hlt2
          refine ⟨by omega, ?_⟩
          show ({ s with sp := s.sp - 1 - 1 } : ZStack) = { s with sp := s.sp - 2 }
          have h2' : s.sp - 1 - 1 = s.sp - 2 := by omega
          rw [h2']

/-- Every successful stack operation preserves the invariant. -/
theorem stackInv_step {s s' : ZStack} (op : StackOp) (hInv : StackInv s)
    (h : applyOp s op = (.ok (), s')) : StackInv s' := by
  have hLV : ZStack.LOCAL_VAR_OFFSET = 8 := rfl
  have hNL : ZStack.NUM_LOCALS_OFFSET = 7 := rfl
  have hSS : STACK_SIZE = 1024 := rfl
  obtain ⟨hlen, hs0, hs0sp, hspSS, hchain⟩ := hInv
  cases op with
  | pushByteOp b =>
    obtain ⟨hle, hadv, _⟩ := pushByte_ok_spec h
    have hsp1 : s'.sp = s.sp + 1 := hadv.2.2.1
    exact stackInv_adv_step ⟨hlen, hs0, hs0sp, hspSS, hchain⟩ hadv (by omega)
  | popByteOp =>
    dsimp only [applyOp] at h
    cases hp : s.popByte with
    | mk r t =>
      rw [hp] at h
      cases r with
      | error e => simp [Except.map] at h
      | ok b =>
        dsimp only [] at h
        cases h
        obtain ⟨hlt, _, rfl⟩ := popByte_ok_inv hp
        refine ⟨hlen, hs0, ?_, ?_, hchain⟩
        · show s.s0 ≤ s.sp - 1
          omega
        · show s.sp - 1 ≤ STACK_SIZE
          omega
  | pushWordOp w =>
    obtain ⟨hle, hadv, _⟩ := pushWord_ok_spec h
    have hsp2 : s'.sp = s.sp + 2 := hadv.2.2.1
    exact stackInv_adv_step ⟨hlen, hs0, hs0sp, hspSS, hchain⟩ hadv (by omega)
  | popWordOp =>
    dsimp only [applyOp] at h
    cases hp : s.popWord with
    | mk r t =>
      rw [hp] at h
      cases r with
      | error e => simp [Except.map] at h
      | ok w2 =>
        dsimp only [] at h
        cases h
        obtain ⟨hlt, rfl⟩ := popWord_ok_inv hp
        refine ⟨hlen, hs0, ?_, ?_, hchain⟩
        · show s.s0 ≤ s.sp - 2
          omega
        · show s.sp - 2 ≤ STACK_SIZE
          omega
  | writeLocalOp l v =>
    obtain ⟨sW, hW, hf, hq, hp, hl, hb⟩ := writeLocal_spec s l v
    dsimp only [applyOp] at h
    rw [hW] at h
    cases h
    have hnum : s'.numLocals = s.numLocals := by
      show byteFromSlice s'.stack (s'.fp + ZStack.NUM_LOCALS_OFFSET) = s.numLocals
      rw [hf]
      unfold byteFromSlice
      rw [hb _ (by omega)]
      rfl
    refine ⟨by omega, by rw [hq, hnum, hf]; exact hs0, by omega, by omega, ?_⟩
    rw [hf]
    exact frameChain_congr hchain s'.stack hb
  | pushFrameOp rp n rv ops =>
    have hfp16 : s.fp < 65536 := by omega
    obtain ⟨hfp1, hsp1, hs01, hsple, hlen1, hlow, hsaved, hnum1⟩ :=
      pushFrame_ok_spec h hlen hfp16
    have hsv : savedFpAt s'.stack s'.fp = s.fp := by
      rw [savedFpAt_eq]
      exact hsaved
    have hnlAt : numLocalsAt s'.stack s.fp = s.numLocals := by
      unfold numLocalsAt byteFromSlice
      rw [hlow _ (by omega)]
      rfl
    refine ⟨hlen1, ?_, by omega, hsple, ?_⟩
    · rw [hs01, hsp1, hfp1, hnum1]
    · have hchain2 : FrameChain s'.stack s.fp :=
        frameChain_congr hchain s'.stack (fun p hp2 => hlow p (by omega))
      refine FrameChain.link _ ?_ ?_ ?_
      · rw [hsv]; omega
      · rw [hsv]; exact hchain2
      · rw [hsv, hfp1, hnlAt]; omega
  | popFrameOp =>
    dsimp only [applyOp] at h
    rcases frameChain_inv hchain with hroot | ⟨hlt, hch, hle⟩
    · rw [ZStack.popFrame] at h
      rw [if_pos (by rw [← savedFpAt_eq]; omega)] at h
      simp at h
    · have hlt2 : s.savedFp < STACK_SIZE := hlt
      rw [popFrame_ok_of hlt2] at h
      cases h
      refine ⟨hlen, rfl, ?_, ?_, ?_⟩
      · show s.savedFp + ZStack.LOCAL_VAR_OFFSET +
          2 * byteFromSlice s.stack (s.savedFp + ZStack.NUM_LOCALS_OFFSET) ≤ s.fp
        exact hle
      · show s.fp ≤ STACK_SIZE
        omega
      · exact hch

/-- Every reachable state satisfies the invariant. -/
theorem reachable_stackInv : ∀ {s : ZStack}, Reachable s → StackInv s := by
  intro s h
  induction h with
  | init => exact stackInv_init
  | step op hr hok ih => exact stackInv_step op ih hok

/-- C10: in every reachable stack state the stack pointer never sits below
the current frame's eval-area base: `s0` is exactly the locals end
(`fp + 8 + 2·num_locals`), `s0 ≤ sp`, `pop_byte` fails with `StackUnderflow`
exactly when `sp = s0` (so eval-area pops can never consume the local slots,
the frame header, or enclosing frames), a successful `pop_byte` keeps `sp`
at or above `s0`, and `pop_frame` recomputes `s0` as the exposed frame's
locals end. -/
theorem reachable_sp_never_below_s0 (s : ZStack) (h : Reachable s) :
    s.s0 = s.fp + ZStack.LOCAL_VAR_OFFSET + 2 * s.numLocals ∧
    s.s0 ≤ s.sp ∧
    ((s.popByte).1 = .error (.StackUnderflow "Popped byte off empty stack.") ↔
      s.sp = s.s0) ∧
    (∀ b s', s.popByte = (.ok b, s') → s.s0 ≤ s'.sp) ∧
    (∀ s', s.popFrame = (.ok (), s') →
      s'.s0 = s'.fp + ZStack.LOCAL_VAR_OFFSET + 2 * s'.numLocals) := by
  obtain ⟨hlen, hs0, hs0sp, hspSS, hchain⟩ := reachable_stackInv h
  refine ⟨hs0, hs0sp, ⟨?_, ?_⟩, ?_, ?_⟩
  · intro herr
    cases hp : s.popByte with
    | mk r t =>
      rw [hp] at herr
      cases r with
      | ok b => simp at herr
      | error e =>
        obtain ⟨hle, _, _⟩ := popByte_err_inv hp
        omega
  · intro heq
    rw [ZStack.popByte, if_neg (by omega)]
  · intro b s' hp
    obtain ⟨hlt, _, rfl⟩ := popByte_ok_inv hp
    show s.s0 ≤ s.sp - 1
    omega
  · intro s' hp
    rw [ZStack.popFrame] at hp
    split at hp
    next => simp at hp
    next hlt2 =>
      cases hp
      rfl

/-- Witness for C10 at the one state that is reachable by construction:
`ZStack::new`. -/
theorem reachable_sp_never_below_s0_witness :
    ZStack.new.s0 = ZStack.new.fp + ZStack.LOCAL_VAR_OFFSET + 2 * ZStack.new.numLocals ∧
    ZStack.new.s0 ≤ ZStack.new.sp ∧
    ((ZStack.new.popByte).1 =
        .error (.StackUnderflow "Popped byte off empty stack.") ↔
      ZStack.new.sp = ZStack.new.s0) ∧
    (∀ b s', ZStack.new.popByte = (.ok b, s') → ZStack.new.s0 ≤ s'.sp) ∧
    (∀ s', ZStack.new.popFrame = (.ok (), s') →
      s'.s0 = s'.fp + ZStack.LOCAL_VAR_OFFSET + 2 * s'.numLocals) :=
  reachable_sp_never_below_s0 ZStack.new Reachable.init
